import Mathlib

/-!
# authenxbackend: wallet challenge authentication and KYC approval

A shallow embedding of the request handlers of `server.js` over an explicit
document store, together with the Mongoose schemas of `models/`.

Conventions of the embedding.

* A request body field is `Option String`: `none` is a field that is missing
  (`undefined`), `some s` a string. Non-string JSON values are outside the model.
* A query filter whose value is `undefined` is sent as `null` and matches no
  stored document (the filtered paths are required strings); a string matches
  exactly.
* The store holds the three collections the handlers touch and a counter from
  which fresh `_id` values are taken (ObjectIds are globally fresh).
* `Math.random` is an input of the handler that draws: the outcome of
  `Math.floor(Math.random() * 1000000)` is a `Fin 1000000`.
* Signature recovery (`ethers.verifyMessage`), the e-mail and URL checks of the
  schema validation library are external collaborators, passed in `Env`.
* Timestamps (`createdAt`, `updatedAt`) and the `_id` of embedded subdocuments
  are not modelled.
* Handlers run one at a time; a handler returns the new store and its response.
-/

namespace Authenx

/-! ## JavaScript primitives -/

/-- JavaScript `toLowerCase`, on the ASCII letters (wallet addresses are
hexadecimal strings). -/
def toLowerCase (s : String) : String :=
  String.mk (s.data.map Char.toLower)

/-- JavaScript `s.length`: the number of UTF-16 code units of `s`. -/
def jsLength (s : String) : Nat :=
  (s.data.map (fun c => if c.val.toNat < 65536 then 1 else 2)).sum

/-- JavaScript falsiness of a body field: missing, or the empty string. -/
def falsy : Option String → Bool
  | none => true
  | some s => s == ""

/-! ## External collaborators -/

/-- The library functions the handlers call and the model does not look into. -/
structure Env where
  /-- `ethers.verifyMessage(message, signature)`: the recovered address, or
  `none` when the library throws (malformed signature). -/
  recover : String → String → Option String
  /-- The check behind `z.string().email()`. -/
  isEmail : String → Bool
  /-- The check behind `z.string().url()`. -/
  isUrl : String → Bool

/-! ## Data model (`models/`) -/

/-- The `contactPersonSchema` of `models/Organization.js`. -/
structure ContactPerson where
  fullName : String
  position : String
  contactNo : String
  personalEmail : String
deriving DecidableEq, Repr

/-- The `kycDetailsSchema` of `models/Organization.js`. Every field but `status`
may be missing from a stored document: a `$set` of `kycDetails.status` on an
organization without `kycDetails` creates the subdocument with that one field. -/
structure KycDetails where
  orgName : Option String
  orgType : Option String
  officialEmail : Option String
  website : Option String
  address : Option String
  country : Option String
  registrationNo : Option String
  certificateUrl : Option String
  contactPerson : Option ContactPerson
  status : String
deriving DecidableEq, Repr

/-- The `organizationSchema` of `models/Organization.js`. -/
structure Organization where
  _id : Nat
  walletAddress : String
  nonce : String
  kycDetails : Option KycDetails
  iskycVerified : Bool
deriving DecidableEq, Repr

/-- The `verifierSignupSchema` of `models/Verifier.js`. -/
structure Verifier where
  _id : Nat
  firstName : String
  lastName : String
  email : String
  password : String
deriving DecidableEq, Repr

/-- The `issuedDocsSchema` of `models/IssuedDocs.js`. -/
structure IssuedDoc where
  _id : Nat
  personName : String
  personWallet : String
  docType : String
  orgWallet : String
  orgName : String
  docHash : String
  issuedAt : Nat
  valid : Bool
deriving DecidableEq, Repr

/-- The document store: the collections and the source of fresh `_id`s. -/
structure Store where
  organizations : List Organization
  verifiers : List Verifier
  issuedDocs : List IssuedDoc
  nextId : Nat
deriving DecidableEq, Repr

/-- The store before any request. -/
def Store.empty : Store :=
  { organizations := [], verifiers := [], issuedDocs := [], nextId := 0 }

/-! ## Sessions and responses -/

/-- The payload of a session token: `jwt.sign` is given `walletAddress` and `id`
for an organization, `id` and `email` for a verifier. -/
structure Session where
  id : Nat
  walletAddress : Option String
  email : Option String
deriving DecidableEq, Repr

/-- A presented session credential: its payload and whether `jwt.verify`
accepts it (well-formed, signed with the server secret, not expired). -/
structure Credential where
  user : Session
  verifies : Bool
deriving DecidableEq, Repr

/-- One issue of a failed schema validation. -/
structure Issue where
  path : String
  message : String
deriving DecidableEq, Repr

/-- The JSON bodies the handlers send. -/
inductive Body where
  | msg (msg : String)
  | error (error : String)
  | failure (message : String)
  | nonce (nonce : String)
  | token (token : Session) (iskycVerified : Bool)
  | updated (message : String) (data : Option Organization)
  | requests (requests : List Organization)
  | errors (errors : List Issue)
  | issued (message : String) (issuedDoc : IssuedDoc)
  | unauthorized
deriving DecidableEq, Repr

/-- What the client gets: a status code with a JSON body, or nothing from the
handler when an exception leaves it uncaught. -/
inductive Response where
  | json (status : Nat) (body : Body)
  | unhandled
deriving DecidableEq, Repr

/-! ## Store operations (Mongoose) -/

/-- A query filter on one string field: a missing (`undefined`) value is sent as
`null` and matches no stored string, a string matches exactly. -/
def matchesFilter (value : Option String) (field : String) : Bool :=
  match value with
  | none => false
  | some v => decide (field = v)

/-- `OrganizationModel.findOne({ walletAddress })`. -/
def findOne (orgs : List Organization) (walletAddress : Option String) : Option Organization :=
  orgs.find? (fun o => matchesFilter walletAddress o.walletAddress)

/-- `OrganizationModel.findById(id)`. -/
def findById (orgs : List Organization) (id : Nat) : Option Organization :=
  orgs.find? (fun o => decide (o._id = id))

/-- Rewrite the first element that satisfies `p`. -/
def updateFirst {α : Type} (p : α → Bool) (f : α → α) : List α → List α
  | [] => []
  | x :: xs => if p x then f x :: xs else x :: updateFirst p f xs

/-- `OrganizationModel.findOneAndUpdate({ walletAddress }, update, { new: true })`:
the collection after the update and the updated document. -/
def findOneAndUpdate (orgs : List Organization) (walletAddress : Option String)
    (update : Organization → Organization) : List Organization × Option Organization :=
  (updateFirst (fun o => matchesFilter walletAddress o.walletAddress) update orgs,
   (findOne orgs walletAddress).map update)

/-- The `required: true` validator of a string path: present and non-empty. -/
def required (value : Option String) : Bool := !falsy value

/-- A new organization document with the schema defaults: a random `nonce`, no
`kycDetails`, `iskycVerified` false. -/
def newOrganization (id : Nat) (walletAddress : String) (draw : Fin 1000000) : Organization :=
  { _id := id, walletAddress := walletAddress, nonce := toString draw.val,
    kycDetails := none, iskycVerified := false }

/-- `OrganizationModel.create({ walletAddress })`: `none` when the document is
refused (`walletAddress` is required and carries a unique index); otherwise the
store with the new document, whose `nonce` default is drawn at random and whose
`iskycVerified` default is `false`. -/
def create (st : Store) (walletAddress : Option String) (draw : Fin 1000000) :
    Option (Store × Organization) :=
  match walletAddress with
  | none => none
  | some w =>
    if !required (some w) then none
    else if st.organizations.any (fun o => decide (o.walletAddress = w)) then none
    else
      let org := newOrganization st.nextId w draw
      some ({ st with organizations := st.organizations ++ [org], nextId := st.nextId + 1 }, org)

/-- Assign the `nonce` of a document. -/
def setNonce (nonce : String) (o : Organization) : Organization :=
  { o with nonce := nonce }

/-- Validation of a `contactPersonSchema` subdocument: its four paths are
required strings. -/
def validateContactPerson (c : ContactPerson) : Bool :=
  required (some c.fullName) && required (some c.position) && required (some c.contactNo)
    && required (some c.personalEmail)

/-- Validation of a `kycDetailsSchema` subdocument: six required paths, the
`enum` of `status`, and the contact person when there is one. -/
def validateKycDetails (k : KycDetails) : Bool :=
  required k.orgName && required k.orgType && required k.officialEmail && required k.address
    && required k.country && required k.registrationNo
    && ["Pending", "Approved", "Rejected"].contains k.status
    && (match k.contactPerson with
        | none => true
        | some c => validateContactPerson c)

/-- The document validation Mongoose runs before `save()` writes: the required
`walletAddress` and, when `kycDetails` is present, the subdocument. -/
def validate (org : Organization) : Bool :=
  required (some org.walletAddress)
    && (match org.kycDetails with
        | none => true
        | some k => validateKycDetails k)

/-- `org.save()` after `org.nonce` was assigned: `none` when validation rejects
the document (nothing is written); otherwise the nonce of the document with this
`_id` is written. -/
def save (st : Store) (org : Organization) : Option Store :=
  if validate org then
    let orgs := updateFirst (fun o => decide (o._id = org._id)) (setNonce org.nonce)
      st.organizations
    some { st with organizations := orgs }
  else none

/-! ## `POST /nonce` -/

/-- The handler of `POST /nonce` (getOrCreateChallenge). -/
def postNonce (st : Store) (walletAddress : Option String) (draw : Fin 1000000) :
    Store × Response :=
  if falsy walletAddress then
    (st, .json 400 (.msg "Wallet Address required"))
  else
    match findOne st.organizations walletAddress with
    | some org => (st, .json 200 (.nonce org.nonce))
    | none =>
      match create st walletAddress draw with
      | some (st', org) => (st', .json 200 (.nonce org.nonce))
      | none => (st, .json 500 (.error "Server error"))

/-! ## `POST /walletverify` -/

/-- The handler of `POST /walletverify` (authenticate). The message handed to
signature recovery is the stored nonce. Nothing in the handler catches an
exception: one thrown by signature recovery, by `toLowerCase` of a missing
wallet address or by `org.save()` leaves the request without an answer. -/
def postWalletverify (env : Env) (st : Store) (walletAddress signature : Option String)
    (draw : Fin 1000000) : Store × Response :=
  match findOne st.organizations walletAddress with
  | none => (st, .json 400 (.msg "Organization not found"))
  | some org =>
    match signature.bind (env.recover org.nonce) with
    | none => (st, .unhandled)
    | some recovered =>
      match walletAddress with
      | none => (st, .unhandled)
      | some w =>
        if toLowerCase recovered ≠ toLowerCase w then
          (st, .json 401 (.msg "Invalid Signature"))
        else
          let org' : Organization := { org with nonce := toString draw.val }
          match save st org' with
          | none => (st, .unhandled)
          | some st' =>
            (st',
             .json 200 (.token
               { id := org'._id, walletAddress := some org'.walletAddress, email := none }
               org'.iskycVerified))

/-! ## `POST /updateOrgStatus` -/

/-- The update document of `POST /updateOrgStatus`, applied to an organization:
`$set` of `kycDetails.status` (the subdocument is created when it is missing)
and of `iskycVerified: status === "Approved"`. -/
def setDecision (status : String) (o : Organization) : Organization :=
  { o with
    kycDetails := some
      (match o.kycDetails with
       | some k => { k with status := status }
       | none =>
         { orgName := none, orgType := none, officialEmail := none, website := none,
           address := none, country := none, registrationNo := none,
           certificateUrl := none, contactPerson := none, status := status }),
    iskycVerified := decide (status = "Approved") }

/-- The handler of `POST /updateOrgStatus` (decide). The route is registered
without the session middleware: the credential of the request is not read. -/
def postUpdateOrgStatus (st : Store) (_authorization : Option Credential)
    (walletAddress status : Option String) : Store × Response :=
  if falsy walletAddress || falsy status then
    (st, .json 400 (.failure "Missing required fields"))
  else if !([some "Approved", some "Rejected"].contains status) then
    (st, .json 400 (.failure "Invalid status"))
  else
    match findOne st.organizations walletAddress with
    | none => (st, .json 404 (.failure "Organization not found"))
    | some _ =>
      let (orgs, updatedOrg) :=
        findOneAndUpdate st.organizations walletAddress (setDecision (status.getD ""))
      ({ st with organizations := orgs },
       .json 200 (.updated
         ("Organization " ++ toLowerCase (status.getD "") ++ " successfully") updatedOrg))

/-! ## Session middleware -/

/-- Modelled from the spec: `middleware/authMiddleware.js` is not part of the
sources at hand. Section 4.4 of the specification: a missing, malformed or
expired credential is answered `Unauthorized`; otherwise the decoded identity is
attached to the request (`req.user`) and the handler runs. -/
def authMiddleware (authorization : Option Credential) : Except Response Session :=
  match authorization with
  | none => .error (.json 401 .unauthorized)
  | some c => if c.verifies then .ok c.user else .error (.json 401 .unauthorized)

/-! ## `GET /kycrequests` -/

/-- The owner wallet of `GET /kycrequests`, lowercased as in the source. -/
def OWNER_WALLET : String := toLowerCase "0x03034f8896c807b5077ABE110e1a9C7e8358ba50"

/-- The handler of `GET /kycrequests` (listPending), behind the session
middleware; it answers 403 to every caller but the owner wallet. -/
def getKycrequests (st : Store) (authorization : Option Credential) : Store × Response :=
  match authMiddleware authorization with
  | .error r => (st, r)
  | .ok user =>
    if falsy user.walletAddress || toLowerCase (user.walletAddress.getD "") ≠ OWNER_WALLET then
      (st, .json 403 (.error "Access denied: Only owner can access this route"))
    else
      (st, .json 200 (.requests
        (st.organizations.filter (fun o => decide (o.kycDetails.map (·.status) = some "Pending")))))

/-! ## `POST /kyc` -/

/-- The file `multer` hands to the handler (`req.file`). -/
structure UploadedFile where
  filename : String
  size : Nat
  mimetype : String
deriving DecidableEq, Repr

/-- The text fields of the multipart body of `POST /kyc`. -/
structure KycBody where
  orgName : Option String
  orgType : Option String
  officialEmail : Option String
  website : Option String
  address : Option String
  country : Option String
  registrationNo : Option String
  fullName : Option String
  position : Option String
  contactNo : Option String
  personalEmail : Option String
deriving DecidableEq, Repr

/-- A `POST /kyc` request: credential, body, uploaded file, and the protocol and
host the certificate URL is built from. -/
structure KycRequest where
  authorization : Option Credential
  body : KycBody
  file : Option UploadedFile
  protocol : String
  host : String
deriving DecidableEq, Repr

/-- The data `OrgKYCSchema.safeParse` returns on success. -/
structure KycData where
  orgName : String
  orgType : String
  officialEmail : String
  website : String
  address : String
  country : String
  registrationNo : String
  fullName : String
  position : String
  contactNo : String
  personalEmail : String
deriving DecidableEq, Repr

/-- The regular expression `/^https?:\/\//i` of the handler, as a test: the
string starts with `http://` or `https://`, letters compared without case. -/
def hasScheme (website : String) : Bool :=
  "http://".data.isPrefixOf (toLowerCase website).data
    || "https://".data.isPrefixOf (toLowerCase website).data

/-- The website normalization of `POST /kyc`: `req.body.website || ""`, then the
scheme `https://` is put in front of a non-empty value that has none. -/
def normalizeWebsite (website : Option String) : String :=
  let w := if falsy website then "" else website.getD ""
  if w ≠ "" && !hasScheme w then "https://" ++ w else w

/-- The issues of `z.string()` followed by the given checks, for one key. -/
def stringIssues (path : String) (value : Option String)
    (checks : List ((String → Bool) × String)) : List Issue :=
  match value with
  | none => [{ path := path, message := "Required" }]
  | some v => (checks.filter (fun c => !c.1 v)).map (fun c => { path := path, message := c.2 })

/-- The issues of the `certificate` key for a file that is present. -/
def certificateIssues (file : UploadedFile) : List Issue :=
  (if file.size ≤ 10000000 then [] else
      [{ path := "certificate", message := "File size must be <= 10 MB" }])
    ++ (if ["application/pdf", "image/png", "image/jpeg"].contains file.mimetype then [] else
      [{ path := "certificate", message := "Only PDF, PNG, or JPEG files are allowed" }])

/-- The outcome of `OrgKYCSchema.safeParse(payload)`. -/
inductive ParseResult where
  | success (data : KycData)
  | failure (issues : List Issue)
  | throws
deriving DecidableEq, Repr

/-- The issues `OrgKYCSchema` raises on the payload of the handler when the
certificate is present, key by key in the order of the schema. -/
def kycIssues (env : Env) (body : KycBody) (website : String) (file : UploadedFile) :
    List Issue :=
  let minLen (n : Nat) : String → Bool := fun v => decide (n ≤ jsLength v)
  let maxLen (n : Nat) : String → Bool := fun v => decide (jsLength v ≤ n)
  stringIssues "orgName" body.orgName
      [(minLen 2, "Organization name must be at least 2 characters"),
       (maxLen 50, "Organization name must be at most 50 characters")]
    ++ stringIssues "orgType" body.orgType [(minLen 2, "Organization type is required")]
    ++ stringIssues "officialEmail" body.officialEmail
      [(env.isEmail, "Invalid official email format")]
    ++ (if website = "" || env.isUrl website then []
        else [{ path := "website", message := "Invalid website URL" }])
    ++ stringIssues "address" body.address
      [(minLen 5, "Registered address must be at least 5 characters")]
    ++ stringIssues "country" body.country [(minLen 2, "Country is required")]
    ++ stringIssues "registrationNo" body.registrationNo
      [(minLen 2, "Registration number is required")]
    ++ certificateIssues file
    ++ stringIssues "fullName" body.fullName
      [(minLen 2, "Full name must be at least 2 characters"),
       (maxLen 50, "Full name must be at most 50 characters")]
    ++ stringIssues "position" body.position
      [(minLen 2, "Position is required"), (maxLen 30, "Position must be at most 30 characters")]
    ++ stringIssues "contactNo" body.contactNo [(minLen 5, "Contact number is required")]
    ++ stringIssues "personalEmail" body.personalEmail
      [(env.isEmail, "Invalid personal email format")]

/-- `OrgKYCSchema.safeParse` on the payload of the handler (the body with the
normalized website, and `req.file` as `certificate`). Without a file the second
refinement of `certificate` reads `file.size` of `undefined` and throws. -/
def safeParse (env : Env) (body : KycBody) (website : String) (certificate : Option UploadedFile) :
    ParseResult :=
  match certificate with
  | none => .throws
  | some file =>
    if kycIssues env body website file = [] then
      .success
        { orgName := body.orgName.getD "", orgType := body.orgType.getD "",
          officialEmail := body.officialEmail.getD "", website := website,
          address := body.address.getD "", country := body.country.getD "",
          registrationNo := body.registrationNo.getD "", fullName := body.fullName.getD "",
          position := body.position.getD "", contactNo := body.contactNo.getD "",
          personalEmail := body.personalEmail.getD "" }
    else .failure (kycIssues env body website file)

/-- `upload.single("certificate")`: the file filter and the size limit of
`multer`. A refused upload is an error passed to the framework; the handler does
not run. -/
def uploadSingle (file : Option UploadedFile) : Except Response (Option UploadedFile) :=
  match file with
  | none => .ok none
  | some f =>
    if !(["application/pdf", "image/jpeg", "image/png"].contains f.mimetype) then .error .unhandled
    else if f.size > 10 * 1024 * 1024 then .error .unhandled
    else .ok (some f)

/-- The `kycDetails` the handler of `POST /kyc` writes: built from the validated
data and the URL of the uploaded certificate only. -/
def kycDetailsOf (data : KycData) (fileUrl : String) : KycDetails :=
  { orgName := some data.orgName, orgType := some data.orgType,
    officialEmail := some data.officialEmail, website := some data.website,
    address := some data.address, country := some data.country,
    registrationNo := some data.registrationNo, certificateUrl := some fileUrl,
    contactPerson := some
      { fullName := data.fullName, position := data.position, contactNo := data.contactNo,
        personalEmail := data.personalEmail },
    status := "Pending" }

/-- The update document of `POST /kyc`, applied to an organization: the whole
`kycDetails` is assigned and `iskycVerified` is set to `false`. -/
def setKyc (kycDetails : KycDetails) (o : Organization) : Organization :=
  { o with kycDetails := some kycDetails, iskycVerified := false }

/-- The handler of `POST /kyc` (submitKyc), behind the session middleware and
the upload middleware. -/
def postKyc (env : Env) (st : Store) (req : KycRequest) : Store × Response :=
  match authMiddleware req.authorization with
  | .error r => (st, r)
  | .ok user =>
    match uploadSingle req.file with
    | .error r => (st, r)
    | .ok file =>
      match findById st.organizations user.id with
      | none => (st, .json 404 (.error "Organization not found"))
      | some _ =>
        let website := normalizeWebsite req.body.website
        match safeParse env req.body website file with
        | .throws => (st, .json 500 (.error "Server error"))
        | .failure issues => (st, .json 400 (.errors issues))
        | .success data =>
          let fileUrl :=
            req.protocol ++ "://" ++ req.host ++ "/uploads/" ++ (file.map (·.filename)).getD ""
          let (orgs, updatedOrg) :=
            findOneAndUpdate st.organizations user.walletAddress (setKyc (kycDetailsOf data fileUrl))
          ({ st with organizations := orgs },
           .json 200 (.updated "KYC submitted successfully!" updatedOrg))

/-! ## `POST /issue` -/

/-- The body of `POST /issue`. -/
structure IssueBody where
  personName : Option String
  personWallet : Option String
  docType : Option String
  orgWallet : Option String
  orgName : Option String
  docHash : Option String
deriving DecidableEq, Repr

/-- A `POST /issue` request: credential, body, and the clock reading that
becomes the `issuedAt` default. -/
structure IssueRequest where
  authorization : Option Credential
  body : IssueBody
  now : Nat
deriving DecidableEq, Repr

/-- `issuedDocsModel.findOne({ docHash })`. -/
def findOneDoc (docs : List IssuedDoc) (docHash : Option String) : Option IssuedDoc :=
  docs.find? (fun d => matchesFilter docHash d.docHash)

/-- `issuedDoc.save()` of a new document: `none` when a required path is missing
or empty, or when the unique index on `docHash` refuses the insert. -/
def saveIssuedDoc (st : Store) (body : IssueBody) (now : Nat) : Option (Store × IssuedDoc) :=
  if required body.personName && required body.personWallet && required body.docType
      && required body.orgWallet && required body.orgName && required body.docHash
      && !st.issuedDocs.any (fun d => decide (some d.docHash = body.docHash)) then
    let doc : IssuedDoc :=
      { _id := st.nextId, personName := body.personName.getD "",
        personWallet := body.personWallet.getD "", docType := body.docType.getD "",
        orgWallet := body.orgWallet.getD "", orgName := body.orgName.getD "",
        docHash := body.docHash.getD "", issuedAt := now, valid := true }
    some ({ st with issuedDocs := st.issuedDocs ++ [doc], nextId := st.nextId + 1 }, doc)
  else none

/-- The handler of `POST /issue` (issue), behind the session middleware. -/
def postIssue (st : Store) (req : IssueRequest) : Store × Response :=
  match authMiddleware req.authorization with
  | .error r => (st, r)
  | .ok user =>
    if (st.verifiers.find? (fun v => decide (v._id = user.id))).isNone
        && (findById st.organizations user.id).isNone then
      (st, .json 404 (.error "User not found"))
    else
      match findOneDoc st.issuedDocs req.body.docHash with
      | some _ => (st, .json 400 (.error "Document already issued"))
      | none =>
        match saveIssuedDoc st req.body req.now with
        | some (st', doc) => (st', .json 201 (.issued "Document issued successfully" doc))
        | none => (st, .json 500 (.error "Server error"))

/-! ## Requests and runs -/

/-- A request to one of the modelled routes, with everything the handler reads. -/
inductive Request where
  | nonce (walletAddress : Option String) (draw : Fin 1000000)
  | walletverify (walletAddress signature : Option String) (draw : Fin 1000000)
  | kyc (req : KycRequest)
  | updateOrgStatus (authorization : Option Credential) (walletAddress status : Option String)
  | issue (req : IssueRequest)

/-- Serve one request. -/
def handle (env : Env) (st : Store) : Request → Store × Response
  | .nonce w d => postNonce st w d
  | .walletverify w s d => postWalletverify env st w s d
  | .kyc r => postKyc env st r
  | .updateOrgStatus a w s => postUpdateOrgStatus st a w s
  | .issue r => postIssue st r

/-- Serve a sequence of requests, one after the other. -/
def run (env : Env) (st : Store) (reqs : List Request) : Store :=
  reqs.foldl (fun s r => (handle env s r).1) st

/-! ## Schema constraints on the store -/

/-- The constraints the schemas and the id source put on the organizations:
the unique index on `walletAddress`, unique `_id`s, `walletAddress` required
(hence non-empty), and every `_id` in use below the next fresh one. -/
def Store.Valid (st : Store) : Prop :=
  (st.organizations.map (·.walletAddress)).Nodup ∧
  (st.organizations.map (·._id)).Nodup ∧
  (∀ o ∈ st.organizations, o.walletAddress ≠ "") ∧
  (∀ o ∈ st.organizations, o._id < st.nextId)

instance (st : Store) : Decidable st.Valid := by
  unfold Store.Valid; infer_instance

/-- The derived flag of an organization agrees with its status. -/
def Organization.Consistent (o : Organization) : Prop :=
  o.iskycVerified = true ↔ o.kycDetails.map (·.status) = some "Approved"

/-- The derived flag agrees with the status on every organization. -/
def KycConsistent (st : Store) : Prop :=
  ∀ o ∈ st.organizations, o.Consistent

/-- An environment for concrete runs: a signature `signed:m` recovers to the
wallet `0xAB` for the message `m`, every other signature to `0x00`. -/
def demoEnv : Env :=
  { recover := fun m sg => if sg = "signed:" ++ m then some "0xAB" else some "0x00",
    isEmail := fun v => v.data.contains '@',
    isUrl := fun v => hasScheme v }

/-- An organization whose KYC was rejected, for concrete runs. -/
def rejectedOrg : Organization :=
  { _id := 0, walletAddress := "0xab", nonce := "482913",
    kycDetails := some
      { orgName := some "Acme", orgType := some "Company", officialEmail := some "kyc@acme.org",
        website := some "https://acme.org", address := some "1 Main Street",
        country := some "IN", registrationNo := some "R-1",
        certificateUrl := some "http://localhost/uploads/old.pdf",
        contactPerson := some
          { fullName := "A B", position := "CEO", contactNo := "12345",
            personalEmail := "ab@acme.org" },
        status := "Rejected" },
    iskycVerified := false }

/-- A store that holds `rejectedOrg` only. -/
def rejectedStore : Store :=
  { organizations := [rejectedOrg], verifiers := [], issuedDocs := [], nextId := 1 }

/-- A session credential of `rejectedOrg`, as `POST /walletverify` mints it. -/
def rejectedOrgCredential : Credential :=
  { user := { id := 0, walletAddress := some "0xab", email := none }, verifies := true }

/-- A certificate upload, for concrete runs. -/
def demoFile : UploadedFile :=
  { filename := "1-cert.pdf", size := 2048, mimetype := "application/pdf" }

/-- A complete KYC resubmission of `rejectedOrg` that gives no scheme in its
website, for concrete runs. -/
def demoKycRequest : KycRequest :=
  { authorization := some rejectedOrgCredential,
    body :=
      { orgName := some "Acme Labs", orgType := some "Company",
        officialEmail := some "kyc@acme.org", website := some "example.org",
        address := some "2 Side Street", country := some "IN", registrationNo := some "R-2",
        fullName := some "C D", position := some "CTO", contactNo := some "67890",
        personalEmail := some "cd@acme.org" },
    file := some demoFile, protocol := "http", host := "localhost:3000" }

/-- The data of `demoKycRequest` after validation. -/
def demoKycData : KycData :=
  { orgName := "Acme Labs", orgType := "Company", officialEmail := "kyc@acme.org",
    website := "https://example.org", address := "2 Side Street", country := "IN",
    registrationNo := "R-2", fullName := "C D", position := "CTO", contactNo := "67890",
    personalEmail := "cd@acme.org" }

/-- An organization as `POST /nonce` and then an approval by
`POST /updateOrgStatus` leave it, with no KYC submission in between: its
`kycDetails` holds the status only. -/
def decidedOnlyOrg : Organization :=
  setDecision "Approved" (newOrganization 0 "0xab" 482913)

/-- The store reached from the empty one by the challenge request and the
approval that make `decidedOnlyOrg`. -/
def decidedOnlyStore : Store :=
  { organizations := [decidedOnlyOrg], verifiers := [], issuedDocs := [], nextId := 1 }

/-- An issued document, for concrete runs. -/
def demoDoc : IssuedDoc :=
  { _id := 1, personName := "Asha", personWallet := "0xP1", docType := "Degree",
    orgWallet := "0xab", orgName := "Acme", docHash := "0xH1", issuedAt := 100, valid := true }

/-- A store with `rejectedOrg` and `demoDoc`. -/
def issuedStore : Store :=
  { organizations := [rejectedOrg], verifiers := [], issuedDocs := [demoDoc], nextId := 2 }

/-- A request by `rejectedOrg` to issue another document under the hash of
`demoDoc`. -/
def reissueRequest : IssueRequest :=
  { authorization := some rejectedOrgCredential,
    body :=
      { personName := some "Bela", personWallet := some "0xP2", docType := some "Diploma",
        orgWallet := some "0xab", orgName := some "Acme", docHash := some "0xH1" },
    now := 200 }

/-- The three ways a handler leaves the organizations: untouched, one document
created, or the first match of a filter rewritten by an update that keeps
`walletAddress` and `_id` and yields a consistent flag from a consistent one. -/
inductive OrgStep (st st2 : Store) : Prop where
  | same (horgs : st2.organizations = st.organizations) (hnext : st.nextId ≤ st2.nextId)
  | created (w : String) (draw : Fin 1000000) (hw : w ≠ "")
      (hfresh : ∀ o ∈ st.organizations, o.walletAddress ≠ w)
      (horgs : st2.organizations = st.organizations ++ [newOrganization st.nextId w draw])
      (hnext : st2.nextId = st.nextId + 1)
  | updated (p : Organization → Bool) (f : Organization → Organization)
      (hwallet : ∀ x, (f x).walletAddress = x.walletAddress)
      (hid : ∀ x, (f x)._id = x._id)
      (hcons : ∀ x, x.Consistent → (f x).Consistent)
      (horgs : st2.organizations = updateFirst p f st.organizations)
      (hnext : st2.nextId = st.nextId)

/-! ## Lemmas on the store operations -/

theorem mem_updateFirst {α : Type} (p : α → Bool) (f : α → α) (l : List α) (x : α)
    (h : x ∈ updateFirst p f l) : x ∈ l ∨ ∃ y ∈ l, p y = true ∧ x = f y := by
  induction l with
  | nil => simp [updateFirst] at h
  | cons a l ih =>
    unfold updateFirst at h
    by_cases hp : p a = true
    · rw [if_pos hp] at h
      rcases List.mem_cons.mp h with h | h
      · exact Or.inr ⟨a, List.mem_cons_self _ _, hp, h⟩
      · exact Or.inl (List.mem_cons_of_mem _ h)
    · rw [if_neg hp] at h
      rcases List.mem_cons.mp h with h | h
      · exact Or.inl (h ▸ List.mem_cons_self _ _)
      · rcases ih h with h | ⟨y, hy, hpy, hxy⟩
        · exact Or.inl (List.mem_cons_of_mem _ h)
        · exact Or.inr ⟨y, List.mem_cons_of_mem _ hy, hpy, hxy⟩

theorem map_updateFirst {α β : Type} (p : α → Bool) (f : α → α) (key : α → β)
    (hkey : ∀ x, key (f x) = key x) (l : List α) :
    (updateFirst p f l).map key = l.map key := by
  induction l with
  | nil => rfl
  | cons a l ih =>
    unfold updateFirst
    by_cases hp : p a = true
    · rw [if_pos hp]; simp [hkey]
    · rw [if_neg hp]; simp [ih]

/-- When the query `q` and the update filter `p` both select `o` first, and the
update keeps the answer of `q`, the query on the updated list finds `f o`. -/
theorem find?_updateFirst {α : Type} (p q : α → Bool) (f : α → α) (o : α)
    (hq : ∀ x, q (f x) = q x) (l : List α)
    (hfq : l.find? q = some o) (hfp : l.find? p = some o) :
    (updateFirst p f l).find? q = some (f o) := by
  induction l with
  | nil => simp at hfq
  | cons a l ih =>
    have hqo : q o = true := List.find?_some hfq
    have hpo : p o = true := List.find?_some hfp
    unfold updateFirst
    by_cases hp : p a = true
    · have hao : a = o := by simpa [List.find?, hp] using hfp
      subst hao
      rw [if_pos hp]
      simp [List.find?, hq, hqo]
    · have hp' : p a = false := by simpa using hp
      rw [if_neg hp]
      have hq' : q a = false := by
        by_contra hqa
        have hqa' : q a = true := by simpa using hqa
        have hao : a = o := by simpa [List.find?, hqa'] using hfq
        exact hp (hao ▸ hpo)
      simp only [List.find?, hq'] at hfq ⊢
      simp only [List.find?, hp'] at hfp
      exact ih hfq hfp

/-- With pairwise distinct keys, the lookup of an element by its key finds it. -/
theorem find?_key_of_nodup {α β : Type} [DecidableEq β] (key : α → β) (l : List α) (o : α)
    (hnd : (l.map key).Nodup) (ho : o ∈ l) :
    l.find? (fun x => decide (key x = key o)) = some o := by
  induction l with
  | nil => simp at ho
  | cons a l ih =>
    rw [List.map_cons, List.nodup_cons] at hnd
    rcases List.mem_cons.mp ho with h | h
    · subst h; simp [List.find?]
    · have hne : key a ≠ key o := by
        intro heq
        exact hnd.1 (heq ▸ List.mem_map_of_mem key h)
      simp only [List.find?, hne, decide_False]
      exact ih hnd.2 h

theorem findOne_some_mem {orgs : List Organization} {w : Option String} {o : Organization}
    (h : findOne orgs w = some o) : o ∈ orgs :=
  List.mem_of_find?_eq_some h

theorem findOne_some_wallet {orgs : List Organization} {w : String} {o : Organization}
    (h : findOne orgs (some w) = some o) : o.walletAddress = w := by
  have := List.find?_some h
  simpa [matchesFilter] using this

theorem findOne_none_iff {orgs : List Organization} {w : String} :
    findOne orgs (some w) = none ↔ ∀ o ∈ orgs, o.walletAddress ≠ w := by
  simp [findOne, matchesFilter, List.find?_eq_none]

/-- In a valid store the organization with wallet `o.walletAddress` is `o`. -/
theorem findOne_of_valid {st : Store} (hv : st.Valid) {o : Organization}
    (ho : o ∈ st.organizations) : findOne st.organizations (some o.walletAddress) = some o := by
  have := find?_key_of_nodup (·.walletAddress) st.organizations o hv.1 ho
  simpa [findOne, matchesFilter] using this

/-- In a valid store the organization with id `o._id` is `o`. -/
theorem findById_of_valid {st : Store} (hv : st.Valid) {o : Organization}
    (ho : o ∈ st.organizations) : findById st.organizations o._id = some o := by
  have := find?_key_of_nodup (·._id) st.organizations o hv.2.1 ho
  simpa [findById] using this

/-! ## What one request does to the organizations -/

theorem setNonce_consistent (n : String) (x : Organization) (h : x.Consistent) :
    (setNonce n x).Consistent := h

theorem setKyc_consistent (k : KycDetails) (hk : k.status = "Pending") (x : Organization) :
    (setKyc k x).Consistent := by
  simp [Organization.Consistent, setKyc, hk]

theorem setDecision_consistent (d : String) (x : Organization) :
    (setDecision d x).Consistent := by
  unfold Organization.Consistent setDecision
  cases x.kycDetails <;> simp

theorem create_eq_some {st st2 : Store} {w : Option String} {draw : Fin 1000000}
    {org : Organization} (h : create st w draw = some (st2, org)) :
    ∃ a, w = some a ∧ a ≠ "" ∧ (∀ o ∈ st.organizations, o.walletAddress ≠ a) ∧
      org = newOrganization st.nextId a draw ∧
      st2 = { st with organizations := st.organizations ++ [org], nextId := st.nextId + 1 } := by
  unfold create at h
  cases w with
  | none => simp at h
  | some a =>
    simp only at h
    split at h
    · simp at h
    · rename_i hreq
      split at h
      · simp at h
      · rename_i hany
        simp only [Option.some.injEq, Prod.mk.injEq] at h
        refine ⟨a, rfl, ?_, ?_, h.2.symm, ?_⟩
        · intro ha
          simp [required, falsy, ha] at hreq
        · intro o ho hoa
          exact hany (List.any_eq_true.mpr ⟨o, ho, by simpa using hoa⟩)
        · rw [← h.1, ← h.2]

theorem save_eq_some {st st2 : Store} {org : Organization} (h : save st org = some st2) :
    validate org = true ∧
      st2 = { st with organizations :=
                (updateFirst (fun o => decide (o._id = org._id)) (setNonce org.nonce)
                  st.organizations) } := by
  unfold save at h
  by_cases hv : validate org = true
  · rw [if_pos hv] at h
    simp only [Option.some.injEq] at h
    exact ⟨hv, h.symm⟩
  · rw [if_neg hv] at h
    cases h

theorem postNonce_orgStep (st : Store) (w : Option String) (draw : Fin 1000000) :
    OrgStep st (postNonce st w draw).1 := by
  unfold postNonce
  split
  · exact .same rfl (le_refl _)
  · split
    · exact .same rfl (le_refl _)
    · split
      · rename_i st2 org hc
        obtain ⟨a, _, ha, hfresh, horg, hst⟩ := create_eq_some hc
        subst hst
        exact .created a draw ha hfresh (by rw [horg]) rfl
      · exact .same rfl (le_refl _)

theorem postWalletverify_orgStep (env : Env) (st : Store) (w sg : Option String)
    (draw : Fin 1000000) : OrgStep st (postWalletverify env st w sg draw).1 := by
  unfold postWalletverify
  split
  · exact .same rfl (le_refl _)
  · split
    · exact .same rfl (le_refl _)
    · split
      · exact .same rfl (le_refl _)
      · split
        · exact .same rfl (le_refl _)
        · dsimp only
          split
          · exact .same rfl (le_refl _)
          · rename_i st2 hs
            rw [(save_eq_some hs).2]
            exact .updated _ (setNonce _) (fun _ => rfl) (fun _ => rfl)
              (setNonce_consistent _) rfl rfl

theorem postUpdateOrgStatus_orgStep (st : Store) (a : Option Credential)
    (w status : Option String) : OrgStep st (postUpdateOrgStatus st a w status).1 := by
  unfold postUpdateOrgStatus
  split
  · exact .same rfl (le_refl _)
  · split
    · exact .same rfl (le_refl _)
    · split
      · exact .same rfl (le_refl _)
      · exact .updated _ (setDecision _) (fun _ => rfl) (fun _ => rfl)
          (fun x _ => setDecision_consistent _ x) rfl rfl

theorem postKyc_orgStep (env : Env) (st : Store) (req : KycRequest) :
    OrgStep st (postKyc env st req).1 := by
  unfold postKyc
  split
  · exact .same rfl (le_refl _)
  · split
    · exact .same rfl (le_refl _)
    · split
      · exact .same rfl (le_refl _)
      · dsimp only
        split
        · exact .same rfl (le_refl _)
        · exact .same rfl (le_refl _)
        · exact .updated _ (setKyc _) (fun _ => rfl) (fun _ => rfl)
            (fun x _ => setKyc_consistent _ rfl x) rfl rfl

theorem saveIssuedDoc_eq_some {st st2 : Store} {body : IssueBody} {now : Nat} {doc : IssuedDoc}
    (h : saveIssuedDoc st body now = some (st2, doc)) :
    st2 = { st with issuedDocs := st.issuedDocs ++ [doc], nextId := st.nextId + 1 } ∧
      body.docHash = some doc.docHash ∧ ∀ d ∈ st.issuedDocs, d.docHash ≠ doc.docHash := by
  unfold saveIssuedDoc at h
  split at h
  · rename_i hc
    simp only [Option.some.injEq, Prod.mk.injEq] at h
    obtain ⟨h1, h2⟩ := h
    simp only [Bool.and_eq_true, Bool.not_eq_true', List.any_eq_false, decide_eq_true_eq] at hc
    obtain ⟨⟨_, hreq⟩, hany⟩ := hc
    have hsome : body.docHash = some doc.docHash := by
      rw [← h2]
      cases hd : body.docHash with
      | none => simp [required, falsy, hd] at hreq
      | some v => rfl
    refine ⟨?_, hsome, ?_⟩
    · rw [← h1, ← h2]
    · intro d hd hdd
      exact hany d hd (by rw [hsome, hdd])
  · simp at h

theorem postIssue_orgStep (st : Store) (req : IssueRequest) :
    OrgStep st (postIssue st req).1 := by
  unfold postIssue
  split
  · exact .same rfl (le_refl _)
  · split
    · exact .same rfl (le_refl _)
    · split
      · exact .same rfl (le_refl _)
      · split
        · rename_i st2 doc hs
          obtain ⟨hst, _⟩ := saveIssuedDoc_eq_some hs
          subst hst
          exact .same rfl (Nat.le_succ _)
        · exact .same rfl (le_refl _)

theorem handle_orgStep (env : Env) (st : Store) (r : Request) :
    OrgStep st (handle env st r).1 := by
  cases r with
  | nonce w d => exact postNonce_orgStep st w d
  | walletverify w s d => exact postWalletverify_orgStep env st w s d
  | kyc r => exact postKyc_orgStep env st r
  | updateOrgStatus a w s => exact postUpdateOrgStatus_orgStep st a w s
  | issue r => exact postIssue_orgStep st r

/-! ## Invariants along a run -/

theorem valid_of_orgStep {st st2 : Store} (hstep : OrgStep st st2) (hv : st.Valid) :
    st2.Valid := by
  obtain ⟨hw, hi, hne, hlt⟩ := hv
  cases hstep with
  | same horgs hnext =>
    refine ⟨by rw [horgs]; exact hw, by rw [horgs]; exact hi, by rw [horgs]; exact hne, ?_⟩
    rw [horgs]
    exact fun o ho => lt_of_lt_of_le (hlt o ho) hnext
  | created w draw hwne hfresh horgs hnext =>
    refine ⟨?_, ?_, ?_, ?_⟩
    · rw [horgs, List.map_append, List.nodup_append]
      refine ⟨hw, by simp, ?_⟩
      intro a ha hb
      simp only [List.map_cons, List.map_nil, List.mem_singleton] at hb
      obtain ⟨o, ho, hoa⟩ := List.mem_map.mp ha
      exact hfresh o ho (by rw [hoa, hb]; rfl)
    · rw [horgs, List.map_append, List.nodup_append]
      refine ⟨hi, by simp, ?_⟩
      intro a ha hb
      simp only [List.map_cons, List.map_nil, List.mem_singleton] at hb
      obtain ⟨o, ho, hoa⟩ := List.mem_map.mp ha
      have := hlt o ho
      rw [hoa, hb] at this
      exact absurd this (lt_irrefl _)
    · rw [horgs]
      intro o ho
      rcases List.mem_append.mp ho with h | h
      · exact hne o h
      · rw [List.mem_singleton.mp h]; exact hwne
    · rw [horgs, hnext]
      intro o ho
      rcases List.mem_append.mp ho with h | h
      · exact Nat.lt_succ_of_lt (hlt o h)
      · rw [List.mem_singleton.mp h]; exact Nat.lt_succ_self _
  | updated p f hwallet hid hcons horgs hnext =>
    refine ⟨?_, ?_, ?_, ?_⟩
    · rw [horgs, map_updateFirst p f _ hwallet]; exact hw
    · rw [horgs, map_updateFirst p f _ hid]; exact hi
    · rw [horgs]
      intro o ho
      rcases mem_updateFirst p f _ o ho with h | ⟨y, hy, _, hoy⟩
      · exact hne o h
      · rw [hoy, hwallet]; exact hne y hy
    · rw [horgs, hnext]
      intro o ho
      rcases mem_updateFirst p f _ o ho with h | ⟨y, hy, _, hoy⟩
      · exact hlt o h
      · rw [hoy, hid]; exact hlt y hy

theorem consistent_of_orgStep {st st2 : Store} (hstep : OrgStep st st2) (hc : KycConsistent st) :
    KycConsistent st2 := by
  intro o ho
  cases hstep with
  | same horgs hnext => exact hc o (horgs ▸ ho)
  | created w draw hwne hfresh horgs hnext =>
    rw [horgs] at ho
    rcases List.mem_append.mp ho with h | h
    · exact hc o h
    · rw [List.mem_singleton.mp h]
      simp [Organization.Consistent, newOrganization]
  | updated p f hwallet hid hcons horgs hnext =>
    rw [horgs] at ho
    rcases mem_updateFirst p f _ o ho with h | ⟨y, hy, _, hoy⟩
    · exact hc o h
    · rw [hoy]; exact hcons y (hc y hy)

/-- A property kept by every request holds after every run. -/
theorem run_induction (env : Env) (P : Store → Prop)
    (hstep : ∀ st r, P st → P (handle env st r).1) (st : Store) (h : P st)
    (reqs : List Request) : P (run env st reqs) := by
  induction reqs generalizing st with
  | nil => exact h
  | cons r rs ih => exact ih _ (hstep st r h)

theorem valid_empty : Store.empty.Valid := by
  simp [Store.Valid, Store.empty]

theorem valid_run (env : Env) (st : Store) (hv : st.Valid) (reqs : List Request) :
    (run env st reqs).Valid :=
  run_induction env Store.Valid (fun s r h => valid_of_orgStep (handle_orgStep env s r) h)
    st hv reqs

/-! ## C1: the decision sets status and flag -/

/-- C1. In a store that meets the schema constraints, for every wallet address
`W` that matches an organization `o` and every decision `d` among `Approved` and
`Rejected`, `POST /updateOrgStatus` answers 200 and leaves that organization
(same `_id`, wallet and nonce) with `kycDetails.status = d` and
`iskycVerified = (d = Approved)`, whatever `o` held before and whoever calls. -/
theorem decide_sets_status_and_flag (st : Store) (hv : st.Valid)
    (authorization : Option Credential) (W d : String) (o : Organization)
    (ho : findOne st.organizations (some W) = some o)
    (hd : d = "Approved" ∨ d = "Rejected") :
    ∃ o2, findOne (postUpdateOrgStatus st authorization (some W) (some d)).1.organizations
          (some W) = some o2 ∧
      (postUpdateOrgStatus st authorization (some W) (some d)).2 =
        .json 200 (.updated ("Organization " ++ toLowerCase d ++ " successfully") (some o2)) ∧
      o2.kycDetails.map (·.status) = some d ∧
      o2.iskycVerified = decide (d = "Approved") ∧
      (d = "Approved" → o2.iskycVerified = true) ∧
      (d = "Rejected" → o2.iskycVerified = false) ∧
      o2._id = o._id ∧ o2.walletAddress = W ∧ o2.nonce = o.nonce := by
  have hW : W ≠ "" := by
    have := hv.2.2.1 o (findOne_some_mem ho)
    rwa [findOne_some_wallet ho] at this
  have hd2 : d ≠ "" := by rcases hd with h | h <;> rw [h] <;> decide
  have hin : ¬(¬d = "Approved" ∧ ¬d = "Rejected") := by
    rcases hd with h | h <;> simp [h]
  have hfind : findOne (updateFirst (fun x => matchesFilter (some W) x.walletAddress)
      (setDecision d) st.organizations) (some W) = some (setDecision d o) :=
    find?_updateFirst (fun x : Organization => matchesFilter (some W) x.walletAddress)
      (fun x : Organization => matchesFilter (some W) x.walletAddress) (setDecision d) o
      (fun _ => rfl) st.organizations ho ho
  have hwal : (setDecision d o).walletAddress = W := by
    show o.walletAddress = W
    exact findOne_some_wallet ho
  refine ⟨setDecision d o, ?_, ?_, ?_, rfl, ?_, ?_, rfl, hwal, rfl⟩
  · simpa [postUpdateOrgStatus, falsy, hW, hd2, hin, ho, findOneAndUpdate] using hfind
  · simp [postUpdateOrgStatus, falsy, hW, hd2, hin, ho, findOneAndUpdate]
  · unfold setDecision; cases o.kycDetails <;> rfl
  · intro h; simp [setDecision, h]
  · intro h; simp [setDecision, h]

/-- C1, at a concrete store: an organization that was `Rejected` is approved. -/
theorem decide_sets_status_and_flag_witness :
    ∃ o2, findOne (postUpdateOrgStatus rejectedStore none (some "0xab")
            (some "Approved")).1.organizations (some "0xab") = some o2 ∧
      o2.kycDetails.map (·.status) = some "Approved" ∧ o2.iskycVerified = true := by
  obtain ⟨o2, h1, _, h3, _, h5, _⟩ :=
    decide_sets_status_and_flag rejectedStore (by decide) none "0xab" "Approved"
      rejectedOrg (by decide) (Or.inl rfl)
  exact ⟨o2, h1, h3, h5 rfl⟩

/-! ## C2: the flag mirrors the status in every reachable state -/

/-- C2. In every state reached from the empty store by any sequence of requests
to `POST /nonce`, `/walletverify`, `/kyc`, `/updateOrgStatus` (and `/issue`),
with arbitrary bodies, credentials and random draws, every organization has
`iskycVerified = true` exactly when `kycDetails.status` is `Approved`; the flag is
false when the status is `Pending`, `Rejected` or `kycDetails` is absent. -/
theorem flag_iff_approved_reachable (env : Env) (reqs : List Request) :
    ∀ o ∈ (run env Store.empty reqs).organizations,
      (o.iskycVerified = true ↔ o.kycDetails.map (·.status) = some "Approved") ∧
      (o.kycDetails = none → o.iskycVerified = false) ∧
      (∀ k, o.kycDetails = some k → k.status = "Pending" ∨ k.status = "Rejected" →
        o.iskycVerified = false) := by
  intro o ho
  have hc : o.Consistent :=
    run_induction env KycConsistent
      (fun s r h => consistent_of_orgStep (handle_orgStep env s r) h)
      Store.empty (by intro x hx; simp [Store.empty] at hx) reqs o ho
  unfold Organization.Consistent at hc
  refine ⟨hc, ?_, ?_⟩
  · intro hk
    rw [hk] at hc
    simpa using hc
  · intro k hk hs
    rw [hk] at hc
    cases hf : o.iskycVerified with
    | false => rfl
    | true =>
      have := hc.mp hf
      simp only [Option.map_some', Option.some.injEq] at this
      rcases hs with h | h <;> rw [h] at this <;> exact absurd this (by decide)

/-- C2, on a concrete run: a challenge, then an approval. -/
theorem flag_iff_approved_reachable_witness :
    setDecision "Approved" (newOrganization 0 "0xab" 7) ∈
        (run demoEnv Store.empty
          [.nonce (some "0xab") 7, .updateOrgStatus none (some "0xab") (some "Approved")]
        ).organizations ∧
      (((setDecision "Approved" (newOrganization 0 "0xab" 7)).iskycVerified = true ↔
          (setDecision "Approved" (newOrganization 0 "0xab" 7)).kycDetails.map (·.status)
            = some "Approved") ∧
        ((setDecision "Approved" (newOrganization 0 "0xab" 7)).kycDetails = none →
          (setDecision "Approved" (newOrganization 0 "0xab" 7)).iskycVerified = false) ∧
        (∀ k, (setDecision "Approved" (newOrganization 0 "0xab" 7)).kycDetails = some k →
          k.status = "Pending" ∨ k.status = "Rejected" →
          (setDecision "Approved" (newOrganization 0 "0xab" 7)).iskycVerified = false)) :=
  ⟨by decide,
   flag_iff_approved_reachable demoEnv
     [.nonce (some "0xab") 7, .updateOrgStatus none (some "0xab") (some "Approved")]
     _ (by decide)⟩

/-! ## C3: a KYC submission replaces the profile -/

theorem stringIssues_nil {path : String} {value : Option String}
    {checks : List ((String → Bool) × String)} (h : stringIssues path value checks = []) :
    ∃ v, value = some v := by
  cases value with
  | none => simp [stringIssues] at h
  | some v => exact ⟨v, rfl⟩

/-- On success the parsed data are the submitted fields and the website handed in. -/
theorem safeParse_success {env : Env} {body : KycBody} {website : String}
    {certificate : Option UploadedFile} {data : KycData}
    (h : safeParse env body website certificate = .success data) :
    body.orgName = some data.orgName ∧ body.orgType = some data.orgType ∧
      body.officialEmail = some data.officialEmail ∧ data.website = website ∧
      body.address = some data.address ∧ body.country = some data.country ∧
      body.registrationNo = some data.registrationNo ∧ body.fullName = some data.fullName ∧
      body.position = some data.position ∧ body.contactNo = some data.contactNo ∧
      body.personalEmail = some data.personalEmail := by
  unfold safeParse at h
  cases certificate with
  | none => simp at h
  | some file =>
    dsimp only at h
    by_cases hnil : kycIssues env body website file = []
    · rw [if_pos hnil] at h
      unfold kycIssues at hnil
      simp only [List.append_eq_nil] at hnil
      obtain ⟨⟨⟨⟨⟨⟨⟨⟨⟨⟨⟨h1, h2⟩, h3⟩, _⟩, h5⟩, h6⟩, h7⟩, _⟩, h9⟩, h10⟩, h11⟩, h12⟩ := hnil
      obtain ⟨v1, e1⟩ := stringIssues_nil h1
      obtain ⟨v2, e2⟩ := stringIssues_nil h2
      obtain ⟨v3, e3⟩ := stringIssues_nil h3
      obtain ⟨v5, e5⟩ := stringIssues_nil h5
      obtain ⟨v6, e6⟩ := stringIssues_nil h6
      obtain ⟨v7, e7⟩ := stringIssues_nil h7
      obtain ⟨v9, e9⟩ := stringIssues_nil h9
      obtain ⟨v10, e10⟩ := stringIssues_nil h10
      obtain ⟨v11, e11⟩ := stringIssues_nil h11
      obtain ⟨v12, e12⟩ := stringIssues_nil h12
      simp only [ParseResult.success.injEq] at h
      subst h
      simp [e1, e2, e3, e5, e6, e7, e9, e10, e11, e12]
    · rw [if_neg hnil] at h
      simp at h

/-- C3. In a store that meets the schema constraints, for every organization `o`
(whatever its previous `kycDetails`, status and flag), a `POST /kyc` under a
session of `o` whose upload is accepted and whose payload passes validation
answers 200 and leaves `o` with `kycDetails` equal to the profile built from the
request alone (the submitted fields, the normalized website, the URL of the
uploaded certificate), with status `Pending`, and with `iskycVerified = false`;
nothing of the previous `kycDetails` enters the new one. -/
theorem submitKyc_replaces_profile (env : Env) (st : Store) (hv : st.Valid)
    (o : Organization) (ho : o ∈ st.organizations) (req : KycRequest) (c : Credential)
    (file : UploadedFile) (data : KycData)
    (hauth : req.authorization = some c) (hver : c.verifies = true)
    (hid : c.user.id = o._id) (hwallet : c.user.walletAddress = some o.walletAddress)
    (hfile : uploadSingle req.file = .ok (some file))
    (hparse : safeParse env req.body (normalizeWebsite req.body.website) (some file)
      = .success data) :
    (postKyc env st req).2 = .json 200 (.updated "KYC submitted successfully!"
        (some { o with
          kycDetails := some (kycDetailsOf data
            (req.protocol ++ "://" ++ req.host ++ "/uploads/" ++ file.filename)),
          iskycVerified := false })) ∧
      findOne (postKyc env st req).1.organizations (some o.walletAddress) =
        some { o with
          kycDetails := some (kycDetailsOf data
            (req.protocol ++ "://" ++ req.host ++ "/uploads/" ++ file.filename)),
          iskycVerified := false } ∧
      kycDetailsOf data (req.protocol ++ "://" ++ req.host ++ "/uploads/" ++ file.filename) =
        { orgName := req.body.orgName, orgType := req.body.orgType,
          officialEmail := req.body.officialEmail,
          website := some (normalizeWebsite req.body.website),
          address := req.body.address, country := req.body.country,
          registrationNo := req.body.registrationNo,
          certificateUrl :=
            some (req.protocol ++ "://" ++ req.host ++ "/uploads/" ++ file.filename),
          contactPerson := some
            { fullName := data.fullName, position := data.position,
              contactNo := data.contactNo, personalEmail := data.personalEmail },
          status := "Pending" } ∧
      req.body.fullName = some data.fullName ∧ req.body.position = some data.position ∧
      req.body.contactNo = some data.contactNo ∧
      req.body.personalEmail = some data.personalEmail := by
  have hone : findOne st.organizations (some o.walletAddress) = some o := findOne_of_valid hv ho
  have hbyid : findById st.organizations c.user.id = some o := by
    rw [hid]; exact findById_of_valid hv ho
  have hmw : authMiddleware req.authorization = .ok c.user := by
    simp [authMiddleware, hauth, hver]
  obtain ⟨e1, e2, e3, e4, e5, e6, e7, e8, e9, e10, e11⟩ := safeParse_success hparse
  have hfind := find?_updateFirst
    (fun x : Organization => matchesFilter (some o.walletAddress) x.walletAddress)
    (fun x : Organization => matchesFilter (some o.walletAddress) x.walletAddress)
    (setKyc (kycDetailsOf data
      (req.protocol ++ "://" ++ req.host ++ "/uploads/" ++ file.filename))) o
    (fun _ => rfl) st.organizations hone hone
  refine ⟨?_, ?_, ?_, e8, e9, e10, e11⟩
  · simp [postKyc, hmw, hfile, hbyid, hparse, hwallet, findOneAndUpdate, hone, setKyc]
  · simpa [postKyc, hmw, hfile, hbyid, hparse, hwallet, findOneAndUpdate, hone, findOne]
      using hfind
  · simp [kycDetailsOf, e1, e2, e3, e4, e5, e6, e7]

/-- C3, on a concrete resubmission by an organization that was `Rejected`: the
old certificate URL is gone and the status is `Pending`. -/
theorem submitKyc_replaces_profile_witness :
    findOne (postKyc demoEnv rejectedStore demoKycRequest).1.organizations (some "0xab") =
      some { rejectedOrg with
        kycDetails := some (kycDetailsOf demoKycData "http://localhost:3000/uploads/1-cert.pdf"),
        iskycVerified := false } :=
  (submitKyc_replaces_profile demoEnv rejectedStore (by decide) rejectedOrg (by decide)
    demoKycRequest rejectedOrgCredential demoFile demoKycData rfl rfl rfl rfl
    rfl (by decide)).2.1

/-! ## C4: the decision route does not check the caller -/

/-- C4. `POST /updateOrgStatus` never reads the credential of the request: with
no session, and with a verified session of a wallet that is not the owner, the
decision on `rejectedOrg` is carried out (200, status `Approved`, flag true),
while the sibling `GET /kycrequests` answers the same callers 401 and 403. -/
theorem updateOrgStatus_without_owner_check :
    (∀ st a w d, postUpdateOrgStatus st a w d = postUpdateOrgStatus st none w d) ∧
      postUpdateOrgStatus rejectedStore none (some "0xab") (some "Approved") =
        ({ rejectedStore with organizations := [setDecision "Approved" rejectedOrg] },
         .json 200 (.updated "Organization approved successfully"
           (some (setDecision "Approved" rejectedOrg)))) ∧
      postUpdateOrgStatus rejectedStore (some rejectedOrgCredential) (some "0xab")
          (some "Approved") =
        ({ rejectedStore with organizations := [setDecision "Approved" rejectedOrg] },
         .json 200 (.updated "Organization approved successfully"
           (some (setDecision "Approved" rejectedOrg)))) ∧
      (setDecision "Approved" rejectedOrg).iskycVerified = true ∧
      (setDecision "Approved" rejectedOrg).kycDetails.map (·.status) = some "Approved" ∧
      toLowerCase "0xab" ≠ OWNER_WALLET ∧
      getKycrequests rejectedStore none = (rejectedStore, .json 401 .unauthorized) ∧
      getKycrequests rejectedStore (some rejectedOrgCredential) =
        (rejectedStore, .json 403 (.error "Access denied: Only owner can access this route")) := by
  refine ⟨fun _ _ _ _ => rfl, ?_, ?_, ?_, ?_, ?_, ?_, ?_⟩ <;> decide

/-! ## C5: authentication against the stored nonce -/

/-- The nonce is not a validated path: the document validates with any nonce. -/
theorem validate_setNonce (o : Organization) (n : String) :
    validate { o with nonce := n } = validate o := rfl

/-- When the lookup, the recovery and the comparison go through and the stored
document validates, `POST /walletverify` writes the drawn nonce and answers 200. -/
theorem postWalletverify_of_valid_document (env : Env) (st : Store) (W s : String)
    (draw : Fin 1000000) (o : Organization) (a : String)
    (ho : findOne st.organizations (some W) = some o)
    (hrec : env.recover o.nonce s = some a) (hl : toLowerCase a = toLowerCase W)
    (hval : validate o = true) :
    postWalletverify env st (some W) (some s) draw =
      ({ st with organizations :=
           (updateFirst (fun x => decide (x._id = o._id)) (setNonce (toString draw.val))
             st.organizations) },
       .json 200 (.token { id := o._id, walletAddress := some o.walletAddress, email := none }
         o.iskycVerified)) := by
  have hval2 : validate { o with nonce := toString draw.val } = true := hval
  simp [postWalletverify, ho, hrec, hl, save, hval2]

/-- A 200 of `POST /walletverify` comes only from a stored organization with the
wallet `W`, an address recovered over its stored nonce that equals `W` after
lowercasing, and a stored document that validates. -/
theorem postWalletverify_success (env : Env) (st : Store) (W s : String)
    (draw : Fin 1000000) (tok : Session) (flag : Bool)
    (h : (postWalletverify env st (some W) (some s) draw).2 = .json 200 (.token tok flag)) :
    ∃ o a, findOne st.organizations (some W) = some o ∧ env.recover o.nonce s = some a ∧
      toLowerCase a = toLowerCase W ∧ validate o = true := by
  cases hf : findOne st.organizations (some W) with
  | none => simp [postWalletverify, hf] at h
  | some o =>
    cases hr : env.recover o.nonce s with
    | none => simp [postWalletverify, hf, hr] at h
    | some a =>
      by_cases hl : toLowerCase a = toLowerCase W
      · cases hv : validate o with
        | true => exact ⟨o, a, rfl, hr, hl, hv⟩
        | false =>
          have hv2 : validate { o with nonce := toString draw.val } = false := hv
          simp [postWalletverify, hf, hr, hl, save, hv2] at h
      · simp [postWalletverify, hf, hr, hl] at h

/-- A request that `POST /walletverify` does not answer 200 leaves the store as
it was. -/
theorem postWalletverify_store_of_no_success (env : Env) (st : Store)
    (w sg : Option String) (draw : Fin 1000000)
    (h : ¬ ∃ tok flag, (postWalletverify env st w sg draw).2 = .json 200 (.token tok flag)) :
    (postWalletverify env st w sg draw).1 = st := by
  cases hf : findOne st.organizations w with
  | none => simp [postWalletverify, hf]
  | some org =>
    cases hr : sg.bind (env.recover org.nonce) with
    | none => simp [postWalletverify, hf, hr]
    | some recovered =>
      cases w with
      | none => simp [postWalletverify, hf, hr]
      | some wv =>
        by_cases hl : toLowerCase recovered = toLowerCase wv
        · cases hs : save st { org with nonce := toString draw.val } with
          | none => simp [postWalletverify, hf, hr, hl, hs]
          | some st2 =>
            exfalso
            apply h
            simp [postWalletverify, hf, hr, hl, hs]
        · simp [postWalletverify, hf, hr, hl]

/-- C5. The code departs from the claim on an organization that was approved
before any KYC submission: after `POST /nonce` for `0xab` and
`POST /updateOrgStatus` with `Approved`, the stored `kycDetails` holds the status
only and misses the paths its schema requires. An organization with wallet `0xab`
is stored and the address recovered from the signature over its stored nonce
equals `0xab` after lowercasing, yet `save()` rejects the document, the handler
catches nothing, and the request ends without a 200, without a 400 and without a
401; the nonce is not rotated. -/
theorem authenticate_unanswered_after_bare_decision :
    run demoEnv Store.empty
        [.nonce (some "0xab") 482913, .updateOrgStatus none (some "0xab") (some "Approved")]
      = decidedOnlyStore ∧
      findOne decidedOnlyStore.organizations (some "0xab") = some decidedOnlyOrg ∧
      decidedOnlyOrg.nonce = "482913" ∧
      decidedOnlyOrg.kycDetails.map (·.orgName) = some none ∧
      demoEnv.recover decidedOnlyOrg.nonce "signed:482913" = some "0xAB" ∧
      toLowerCase "0xAB" = toLowerCase "0xab" ∧
      validate decidedOnlyOrg = false ∧
      postWalletverify demoEnv decidedOnlyStore (some "0xab") (some "signed:482913") 5 =
        (decidedOnlyStore, .unhandled) := by
  refine ⟨by decide, by decide, by decide, by decide, by decide, by decide, by decide,
    by decide⟩

/-! ## C6: nonce rotation -/

theorem demoEnv_signature_only_over (n m : String) (a : String)
    (h : demoEnv.recover m ("signed:" ++ n) = some a) (hl : toLowerCase a = toLowerCase "0xab") :
    m = n := by
  simp only [demoEnv] at h
  by_cases hm : "signed:" ++ n = "signed:" ++ m
  · have hdata := congrArg String.data hm
    simp only [String.data_append] at hdata
    exact (String.ext (List.append_cancel_left hdata)).symm
  · rw [if_neg hm] at h
    simp only [Option.some.injEq] at h
    subst h
    exact absurd hl (by decide)

/-- C6, as stated, fails: with stored nonce `482913` and the draw `482913`, a
successful authentication stores the same nonce again, and the replay of the same
wallet and signature (valid only over `482913`) succeeds once more. -/
theorem rotation_may_repeat_nonce :
    findOne rejectedStore.organizations (some "0xab") = some rejectedOrg ∧
      rejectedOrg.nonce = "482913" ∧
      (∀ m a, demoEnv.recover m "signed:482913" = some a →
        toLowerCase a = toLowerCase "0xab" → m = "482913") ∧
      postWalletverify demoEnv rejectedStore (some "0xab") (some "signed:482913") 482913 =
        (rejectedStore, .json 200 (.token rejectedOrgCredential.user false)) ∧
      postWalletverify demoEnv
          (postWalletverify demoEnv rejectedStore (some "0xab") (some "signed:482913") 482913).1
          (some "0xab") (some "signed:482913") 482913 =
        (rejectedStore, .json 200 (.token rejectedOrgCredential.user false)) := by
  refine ⟨by decide, by decide, ?_, by decide, by decide⟩
  intro m a h hl
  exact demoEnv_signature_only_over "482913" m a h hl

/-- C6, amended. In a store that meets the schema constraints, let `o` be the
organization with wallet `W` and stored nonce `n`. A `POST /walletverify` that
succeeds (200 with a session token) leaves that organization with the decimal
string of the random draw as its nonce, and it does succeed whenever the address
recovered over `n` equals `W` after lowercasing and the stored document
validates. When the decimal string of the draw differs from `n`, replaying the
same wallet and signature, for a signature from which an address is recovered
over every message and which recovers `W` only over `n`, is answered 401
"Invalid Signature" and changes nothing. -/
theorem rotation_stores_draw (env : Env) (st : Store) (hv : st.Valid) (W s : String)
    (draw : Fin 1000000) (o : Organization)
    (ho : findOne st.organizations (some W) = some o) :
    (∀ a, env.recover o.nonce s = some a → toLowerCase a = toLowerCase W →
        validate o = true →
        (postWalletverify env st (some W) (some s) draw).2 =
          .json 200 (.token { id := o._id, walletAddress := some o.walletAddress, email := none }
            o.iskycVerified)) ∧
      (∀ tok flag,
        (postWalletverify env st (some W) (some s) draw).2 = .json 200 (.token tok flag) →
        findOne (postWalletverify env st (some W) (some s) draw).1.organizations (some W) =
            some { o with nonce := toString draw.val } ∧
          (toString draw.val ≠ o.nonce →
            (∀ m, ∃ b, env.recover m s = some b) →
            (∀ m b, env.recover m s = some b → toLowerCase b = toLowerCase W → m = o.nonce) →
            ∀ draw2, postWalletverify env (postWalletverify env st (some W) (some s) draw).1
                (some W) (some s) draw2 =
              ((postWalletverify env st (some W) (some s) draw).1,
               .json 401 (.msg "Invalid Signature")))) := by
  have hmem : o ∈ st.organizations := findOne_some_mem ho
  have hbyid : findById st.organizations o._id = some o := findById_of_valid hv hmem
  constructor
  · intro a hrec hl hval
    rw [postWalletverify_of_valid_document env st W s draw o a ho hrec hl hval]
  · intro tok flag hsucc
    obtain ⟨o2, a, ho2, hrec, hl, hval⟩ := postWalletverify_success env st W s draw tok flag hsucc
    rw [ho] at ho2
    cases ho2
    rw [postWalletverify_of_valid_document env st W s draw o a ho hrec hl hval]
    have hfind : findOne (updateFirst (fun x : Organization => decide (x._id = o._id))
        (setNonce (toString draw.val)) st.organizations) (some W) =
        some { o with nonce := toString draw.val } :=
      find?_updateFirst (fun x : Organization => decide (x._id = o._id))
        (fun x : Organization => matchesFilter (some W) x.walletAddress)
        (setNonce (toString draw.val)) o (fun _ => rfl) st.organizations ho hbyid
    refine ⟨hfind, ?_⟩
    intro hne hdef honly draw2
    obtain ⟨b, hb⟩ := hdef (toString draw.val)
    have hbl : toLowerCase b ≠ toLowerCase W := fun h => hne (honly _ b hb h)
    simp [postWalletverify, hfind, hb, hbl]

/-- C6 amended, on a concrete store: the authentication succeeds, the draw `5`
replaces the nonce `482913`, and the replay is refused. -/
theorem rotation_stores_draw_witness :
    (postWalletverify demoEnv rejectedStore (some "0xab") (some "signed:482913") 5).2 =
        .json 200 (.token { id := 0, walletAddress := some "0xab", email := none } false) ∧
      findOne (postWalletverify demoEnv rejectedStore (some "0xab") (some "signed:482913")
        5).1.organizations (some "0xab") = some { rejectedOrg with nonce := "5" } ∧
      postWalletverify demoEnv
          (postWalletverify demoEnv rejectedStore (some "0xab") (some "signed:482913") 5).1
          (some "0xab") (some "signed:482913") 9 =
        ((postWalletverify demoEnv rejectedStore (some "0xab") (some "signed:482913") 5).1,
         .json 401 (.msg "Invalid Signature")) :=
  have h := rotation_stores_draw demoEnv rejectedStore (by decide) "0xab" "signed:482913" 5
    rejectedOrg (by decide)
  have h2 := h.2 _ _ (h.1 "0xAB" (by decide) (by decide) (by decide))
  ⟨h.1 "0xAB" (by decide) (by decide) (by decide), h2.1,
   h2.2 (by decide)
     (fun m => by
       by_cases hm : "signed:482913" = "signed:" ++ m
       · exact ⟨"0xAB", by simp [demoEnv, hm]⟩
       · exact ⟨"0x00", by simp [demoEnv, hm]⟩)
     (fun m b hb hbl => demoEnv_signature_only_over "482913" m b hb hbl) 9⟩

/-! ## C7: a document hash is issued once -/

/-- How one request changes the issued documents: not at all, or by one new
document whose hash no stored document has. -/
theorem handle_issuedDocs (env : Env) (st : Store) (r : Request) :
    (handle env st r).1.issuedDocs = st.issuedDocs ∨
      ∃ doc, (handle env st r).1.issuedDocs = st.issuedDocs ++ [doc] ∧
        ∀ d ∈ st.issuedDocs, d.docHash ≠ doc.docHash := by
  cases r with
  | nonce w d =>
    left
    simp only [handle, postNonce]
    split
    · rfl
    · split
      · rfl
      · split
        · rename_i st2 org hc
          obtain ⟨_, _, _, _, _, hst⟩ := create_eq_some hc
          rw [hst]
        · rfl
  | walletverify w s d =>
    left
    simp only [handle, postWalletverify]
    split
    · rfl
    · split
      · rfl
      · split
        · rfl
        · split
          · rfl
          · split
            · rfl
            · rename_i st2 hs
              rw [(save_eq_some hs).2]
  | kyc r =>
    left
    simp only [handle, postKyc]
    repeat' split
    all_goals rfl
  | updateOrgStatus a w s =>
    left
    simp only [handle, postUpdateOrgStatus]
    repeat' split
    all_goals rfl
  | issue r =>
    simp only [handle, postIssue]
    split
    · exact Or.inl rfl
    · split
      · exact Or.inl rfl
      · split
        · exact Or.inl rfl
        · split
          · rename_i st2 doc hs
            obtain ⟨hst, _, hfresh⟩ := saveIssuedDoc_eq_some hs
            right
            exact ⟨doc, by rw [hst], hfresh⟩
          · exact Or.inl rfl

/-- C7. For every store and every `POST /issue` request of a caller with a
verified session that resolves to a verifier or an organization: when a stored
document has the `docHash` of the request, the answer is 400 "Document already
issued" and the whole store, hence every field of that document, is unchanged.
And from any store whose documents have pairwise distinct hashes, no sequence of
requests leads to two documents with the same `docHash`. -/
theorem issue_rejects_known_docHash (env : Env) :
    (∀ (st : Store) (req : IssueRequest) (user : Session) (h : String) (d : IssuedDoc),
        authMiddleware req.authorization = .ok user →
        ((st.verifiers.find? (fun v => decide (v._id = user.id))).isSome ∨
          (findById st.organizations user.id).isSome) →
        req.body.docHash = some h → d ∈ st.issuedDocs → d.docHash = h →
        postIssue st req = (st, .json 400 (.error "Document already issued"))) ∧
      (∀ (st : Store) (reqs : List Request), (st.issuedDocs.map (·.docHash)).Nodup →
        ((run env st reqs).issuedDocs.map (·.docHash)).Nodup) := by
  constructor
  · intro st req user h d hauth hres hhash hd hdh
    have hfound : ∃ x, findOneDoc st.issuedDocs (some h) = some x := by
      cases hx : findOneDoc st.issuedDocs (some h) with
      | some x => exact ⟨x, rfl⟩
      | none =>
        simp only [findOneDoc, List.find?_eq_none] at hx
        exact absurd (by simp [matchesFilter, hdh]) (hx d hd)
    obtain ⟨x, hx⟩ := hfound
    have hres2 : ¬((st.verifiers.find? (fun v => decide (v._id = user.id))).isNone = true ∧
        (findById st.organizations user.id).isNone = true) := by
      rintro ⟨h1, h2⟩
      rcases hres with h | h
      · rw [Option.isNone_iff_eq_none] at h1; rw [h1] at h; cases h
      · rw [Option.isNone_iff_eq_none] at h2; rw [h2] at h; cases h
    simp only [postIssue, hauth, hhash, hx, Bool.and_eq_true]
    rw [if_neg hres2]
  · intro st reqs hnd
    refine run_induction env (fun s => (s.issuedDocs.map (·.docHash)).Nodup) ?_ st hnd reqs
    intro s r hs
    rcases handle_issuedDocs env s r with h | ⟨doc, h, hfresh⟩
    · rw [h]; exact hs
    · rw [h, List.map_append, List.nodup_append]
      refine ⟨hs, by simp, ?_⟩
      intro a ha hb
      simp only [List.map_cons, List.map_nil, List.mem_singleton] at hb
      obtain ⟨x, hx, hxa⟩ := List.mem_map.mp ha
      exact hfresh x hx (by rw [hxa, hb])

/-- C7, on a concrete store: a second issue under the hash `0xH1` is refused and
`demoDoc` stays as it was; and a run of two issues with one hash keeps one. -/
theorem issue_rejects_known_docHash_witness :
    postIssue issuedStore reissueRequest =
        (issuedStore, .json 400 (.error "Document already issued")) ∧
      ((run demoEnv issuedStore [.issue reissueRequest, .issue reissueRequest]).issuedDocs.map
        (·.docHash)).Nodup :=
  ⟨(issue_rejects_known_docHash demoEnv).1 issuedStore reissueRequest rejectedOrgCredential.user
      "0xH1" demoDoc rfl (Or.inr rfl) rfl (by decide) rfl,
   (issue_rejects_known_docHash demoEnv).2 issuedStore
      [.issue reissueRequest, .issue reissueRequest] (by decide)⟩

/-! ## C8: refused decisions -/

/-- C8, as stated, fails: with a valid decision and the empty wallet address,
which no organization has, the answer is 400 "Missing required fields", not the
404 of an unknown organization. -/
theorem decide_empty_wallet_not_404 :
    [some "Approved", some "Rejected"].contains (some "Approved") = true ∧
      (∀ o ∈ Store.empty.organizations, o.walletAddress ≠ "") ∧
      postUpdateOrgStatus Store.empty none (some "") (some "Approved") =
        (Store.empty, .json 400 (.failure "Missing required fields")) ∧
      postUpdateOrgStatus Store.empty none (some "") (some "Approved") ≠
        (Store.empty, .json 404 (.failure "Organization not found")) := by
  refine ⟨by decide, by decide, by decide, by decide⟩

/-- C8, amended. For every `POST /updateOrgStatus` request: a decision other
than exactly `Approved` or `Rejected` (missing and empty included) is answered
400; with a valid decision, a missing or empty wallet address is answered 400
"Missing required fields", and a non-empty wallet address that no organization
has is answered 404 "Organization not found"; in all these cases the store is
unchanged. -/
theorem decide_refusals (st : Store) (authorization : Option Credential)
    (walletAddress status : Option String) :
    (status ≠ some "Approved" → status ≠ some "Rejected" →
        (postUpdateOrgStatus st authorization walletAddress status =
            (st, .json 400 (.failure "Missing required fields")) ∨
          postUpdateOrgStatus st authorization walletAddress status =
            (st, .json 400 (.failure "Invalid status")))) ∧
      (status = some "Approved" ∨ status = some "Rejected" →
        walletAddress = none ∨ walletAddress = some "" →
        postUpdateOrgStatus st authorization walletAddress status =
          (st, .json 400 (.failure "Missing required fields"))) ∧
      (status = some "Approved" ∨ status = some "Rejected" →
        ∀ w, walletAddress = some w → w ≠ "" →
        (∀ o ∈ st.organizations, o.walletAddress ≠ w) →
        postUpdateOrgStatus st authorization walletAddress status =
          (st, .json 404 (.failure "Organization not found"))) := by
  refine ⟨?_, ?_, ?_⟩
  · intro h1 h2
    unfold postUpdateOrgStatus
    split
    · exact Or.inl rfl
    · right
      have e1 : (status == some "Approved") = false := beq_eq_false_iff_ne.mpr h1
      have e2 : (status == some "Rejected") = false := beq_eq_false_iff_ne.mpr h2
      have hin : [some "Approved", some "Rejected"].contains status = false := by
        simp [List.contains, List.elem, e1, e2]
      rw [hin]
      rfl
  · intro _ hw
    rcases hw with h | h <;> simp [postUpdateOrgStatus, falsy, h]
  · intro hs w hw hne hnone
    have hf : findOne st.organizations (some w) = none := findOne_none_iff.mpr hnone
    rcases hs with h | h <;> simp [postUpdateOrgStatus, falsy, h, hw, hne, hf]

/-- C8 amended, on concrete requests: a lowercase `approved` is refused with
400, and the unknown wallet `0xcd` with 404. -/
theorem decide_refusals_witness :
    (postUpdateOrgStatus rejectedStore none (some "0xab") (some "approved") =
          (rejectedStore, .json 400 (.failure "Missing required fields")) ∨
        postUpdateOrgStatus rejectedStore none (some "0xab") (some "approved") =
          (rejectedStore, .json 400 (.failure "Invalid status"))) ∧
      postUpdateOrgStatus rejectedStore none (some "0xcd") (some "Rejected") =
        (rejectedStore, .json 404 (.failure "Organization not found")) :=
  ⟨(decide_refusals rejectedStore none (some "0xab") (some "approved")).1
      (by decide) (by decide),
   (decide_refusals rejectedStore none (some "0xcd") (some "Rejected")).2.2
      (Or.inr rfl) "0xcd" rfl (by decide) (by decide)⟩

/-! ## The challenge route on a non-empty wallet address -/

theorem postNonce_of_found (st : Store) (W : String) (hW : W ≠ "") (draw : Fin 1000000)
    (o : Organization) (ho : findOne st.organizations (some W) = some o) :
    postNonce st (some W) draw = (st, .json 200 (.nonce o.nonce)) := by
  simp [postNonce, falsy, hW, ho]

theorem postNonce_of_not_found (st : Store) (W : String) (hW : W ≠ "") (draw : Fin 1000000)
    (ho : findOne st.organizations (some W) = none) :
    postNonce st (some W) draw =
      ({ st with organizations := st.organizations ++ [newOrganization st.nextId W draw],
                 nextId := st.nextId + 1 },
       .json 200 (.nonce (toString draw.val))) := by
  have hany : st.organizations.any (fun o => decide (o.walletAddress = W)) = false := by
    rw [List.any_eq_false]
    intro o ho2
    simpa using findOne_none_iff.mp ho o ho2
  simp [postNonce, falsy, hW, ho, create, required, hany, newOrganization]

/-- After a challenge request for a non-empty `W`, the organization with exactly
the wallet `W` is stored, and its nonce is the one returned. -/
theorem postNonce_findOne (st : Store) (W : String) (hW : W ≠ "") (draw : Fin 1000000) :
    ∃ o, findOne (postNonce st (some W) draw).1.organizations (some W) = some o ∧
      (postNonce st (some W) draw).2 = .json 200 (.nonce o.nonce) := by
  cases ho : findOne st.organizations (some W) with
  | some o =>
    rw [postNonce_of_found st W hW draw o ho]
    exact ⟨o, ho, rfl⟩
  | none =>
    rw [postNonce_of_not_found st W hW draw ho]
    refine ⟨newOrganization st.nextId W draw, ?_, rfl⟩
    have hnone : st.organizations.find?
        (fun o => matchesFilter (some W) o.walletAddress) = none := ho
    show List.find? (fun o => matchesFilter (some W) o.walletAddress)
      (st.organizations ++ [newOrganization st.nextId W draw]) = _
    rw [List.find?_append, hnone]
    simp [matchesFilter, newOrganization]

/-- A repeated challenge request changes nothing and answers as the first did. -/
theorem postNonce_twice (st : Store) (W : String) (hW : W ≠ "") (d1 d2 : Fin 1000000) :
    postNonce (postNonce st (some W) d1).1 (some W) d2 =
      ((postNonce st (some W) d1).1, (postNonce st (some W) d1).2) := by
  obtain ⟨o, ho, hresp⟩ := postNonce_findOne st W hW d1
  rw [postNonce_of_found _ W hW d2 o ho, hresp]

/-! ## C9: wallet addresses that differ in letter case -/

/-- C9. The code departs from the claim: `0xAB` and `0xab` are equal after
lowercasing, yet the second challenge request creates a second organization with
a nonce of its own, and authentication and decision under `0xab` do not find the
organization created under `0xAB`. Where the code compares wallet addresses it
does so without case: `POST /walletverify` accepts the recovered address `0xAB`
for the wallet `0xab`, and `GET /kycrequests` accepts the owner wallet written in
capitals. -/
theorem wallet_lookup_is_case_sensitive :
    toLowerCase "0xAB" = toLowerCase "0xab" ∧
      postNonce Store.empty (some "0xAB") 111111 =
        ({ organizations := [newOrganization 0 "0xAB" 111111], verifiers := [],
           issuedDocs := [], nextId := 1 },
         .json 200 (.nonce "111111")) ∧
      postNonce (postNonce Store.empty (some "0xAB") 111111).1 (some "0xab") 222222 =
        ({ organizations := [newOrganization 0 "0xAB" 111111, newOrganization 1 "0xab" 222222],
           verifiers := [], issuedDocs := [], nextId := 2 },
         .json 200 (.nonce "222222")) ∧
      (postWalletverify demoEnv (postNonce Store.empty (some "0xAB") 111111).1 (some "0xab")
          (some "signed:111111") 5).2 = .json 400 (.msg "Organization not found") ∧
      (postUpdateOrgStatus (postNonce Store.empty (some "0xAB") 111111).1 none (some "0xab")
          (some "Approved")).2 = .json 404 (.failure "Organization not found") ∧
      demoEnv.recover "482913" "signed:482913" = some "0xAB" ∧
      (postWalletverify demoEnv rejectedStore (some "0xab") (some "signed:482913") 5).2 =
        .json 200 (.token { id := 0, walletAddress := some "0xab", email := none } false) ∧
      (getKycrequests Store.empty
          (some { user := { id := 0,
                            walletAddress := some "0X03034F8896C807B5077ABE110E1A9C7E8358BA50",
                            email := none },
                  verifies := true })).2 = .json 200 (.requests []) := by
  refine ⟨by decide, by decide, by decide, by decide, by decide, by decide, by decide,
    by decide⟩

/-- What the lookups do give: organizations are found by the exact wallet address
string. For every non-empty `W`, a second `POST /nonce` with the same string `W` resolves
to the same record, returns the same nonce and leaves the store as it was;
`POST /walletverify` and `POST /updateOrgStatus` called with the same string `W`
find the organization created under `W`; and in every state reached from the
empty store no two organizations have the same wallet address string. -/
theorem wallet_lookup_is_exact (env : Env) :
    (∀ (st : Store) (W : String) (d1 d2 : Fin 1000000), W ≠ "" →
        postNonce (postNonce st (some W) d1).1 (some W) d2 =
          ((postNonce st (some W) d1).1, (postNonce st (some W) d1).2)) ∧
      (∀ (st : Store) (W s : String) (d1 d2 : Fin 1000000), W ≠ "" →
        postWalletverify env (postNonce st (some W) d1).1 (some W) (some s) d2 ≠
          ((postNonce st (some W) d1).1, .json 400 (.msg "Organization not found"))) ∧
      (∀ (st : Store) (W d : String) (a : Option Credential) (d1 : Fin 1000000), W ≠ "" →
        d = "Approved" ∨ d = "Rejected" →
        ∃ o, (postUpdateOrgStatus (postNonce st (some W) d1).1 a (some W) (some d)).2 =
            .json 200 (.updated ("Organization " ++ toLowerCase d ++ " successfully") (some o)) ∧
          o.walletAddress = W) ∧
      (∀ reqs : List Request,
        ((run env Store.empty reqs).organizations.map (·.walletAddress)).Nodup) := by
  refine ⟨fun st W d1 d2 hW => postNonce_twice st W hW d1 d2, ?_, ?_, ?_⟩
  · intro st W s d1 d2 hW
    obtain ⟨o, ho, _⟩ := postNonce_findOne st W hW d1
    intro h
    have h2 := congrArg Prod.snd h
    simp only [postWalletverify, ho, Option.bind] at h2
    split at h2
    · cases h2
    · split at h2
      · cases h2
      · split at h2 <;> cases h2
  · intro st W d a d1 hW hd
    obtain ⟨o, ho, _⟩ := postNonce_findOne st W hW d1
    have hd2 : d ≠ "" := by rcases hd with h | h <;> rw [h] <;> decide
    have hin : ¬(¬d = "Approved" ∧ ¬d = "Rejected") := by
      rcases hd with h | h <;> simp [h]
    have hwal : (setDecision d o).walletAddress = W := by
      show o.walletAddress = W
      exact findOne_some_wallet ho
    refine ⟨setDecision d o, ?_, hwal⟩
    simp [postUpdateOrgStatus, falsy, hW, hd2, hin, ho, findOneAndUpdate]
  · intro reqs
    exact (valid_run env Store.empty valid_empty reqs).1

/-! ## C10: the challenge route is idempotent on the records -/

theorem filter_key_length_le_one {α β : Type} [DecidableEq β] (key : α → β) (b : β)
    (l : List α) (h : (l.map key).Nodup) :
    (l.filter (fun x => decide (key x = b))).length ≤ 1 := by
  induction l with
  | nil => simp
  | cons a l ih =>
    rw [List.map_cons, List.nodup_cons] at h
    by_cases hab : key a = b
    · have hnil : l.filter (fun x => decide (key x = b)) = [] := by
        rw [List.filter_eq_nil_iff]
        intro x hx hxb
        have hxb2 : key x = b := by simpa using hxb
        exact h.1 (by rw [hab, ← hxb2]; exact List.mem_map_of_mem key hx)
      simp [List.filter, hab, hnil]
    · simp only [List.filter, hab, decide_False]
      exact ih h.2

theorem valid_postNonce_calls (st : Store) (hv : st.Valid) (W : Option String)
    (draws : List (Fin 1000000)) :
    (draws.foldl (fun s d => (postNonce s W d).1) st).Valid := by
  induction draws generalizing st with
  | nil => exact hv
  | cons d ds ih => exact ih _ (valid_of_orgStep (postNonce_orgStep st W d) hv)

/-- C10. For every store that meets the schema constraints and every non-empty
wallet address `W`: when no organization has wallet `W`, `POST /nonce` appends
exactly one organization for `W`, with `iskycVerified = false` and no
`kycDetails`, and returns its nonce; when one has, the store is unchanged and its
nonce is returned. A further call with the same `W` leaves the store unchanged
and returns the same nonce, and after any number of calls at most one
organization has wallet `W`. -/
theorem getOrCreateChallenge_idempotent (st : Store) (hv : st.Valid) (W : String)
    (hW : W ≠ "") (d1 d2 : Fin 1000000) :
    (findOne st.organizations (some W) = none →
        postNonce st (some W) d1 =
          ({ st with
              organizations := st.organizations ++
                [{ _id := st.nextId, walletAddress := W, nonce := toString d1.val,
                   kycDetails := none, iskycVerified := false }],
              nextId := st.nextId + 1 },
           .json 200 (.nonce (toString d1.val)))) ∧
      (∀ o, findOne st.organizations (some W) = some o →
        postNonce st (some W) d1 = (st, .json 200 (.nonce o.nonce))) ∧
      (postNonce (postNonce st (some W) d1).1 (some W) d2).1 = (postNonce st (some W) d1).1 ∧
      (postNonce (postNonce st (some W) d1).1 (some W) d2).2 = (postNonce st (some W) d1).2 ∧
      (∀ draws : List (Fin 1000000),
        ((draws.foldl (fun s d => (postNonce s (some W) d).1) st).organizations.filter
          (fun o => decide (o.walletAddress = W))).length ≤ 1) := by
  refine ⟨fun h => postNonce_of_not_found st W hW d1 h,
    fun o h => postNonce_of_found st W hW d1 o h, ?_, ?_, ?_⟩
  · rw [postNonce_twice st W hW d1 d2]
  · rw [postNonce_twice st W hW d1 d2]
  · intro draws
    exact filter_key_length_le_one (fun o : Organization => o.walletAddress) W _
      (valid_postNonce_calls st hv (some W) draws).1

/-- C10, on a concrete store: two calls for the unseen wallet `0xcd` create one
organization and return one nonce. -/
theorem getOrCreateChallenge_idempotent_witness :
    postNonce rejectedStore (some "0xcd") 111111 =
        ({ rejectedStore with
            organizations := rejectedStore.organizations ++
              [{ _id := 1, walletAddress := "0xcd", nonce := "111111",
                 kycDetails := none, iskycVerified := false }],
            nextId := 2 },
         .json 200 (.nonce "111111")) ∧
      (postNonce (postNonce rejectedStore (some "0xcd") 111111).1 (some "0xcd") 222222).2 =
        (postNonce rejectedStore (some "0xcd") 111111).2 ∧
      (([111111, 222222, 333333].foldl (fun s d => (postNonce s (some "0xcd") d).1)
          rejectedStore).organizations.filter
        (fun o => decide (o.walletAddress = "0xcd"))).length ≤ 1 :=
  have h := getOrCreateChallenge_idempotent rejectedStore (by decide) "0xcd" (by decide)
    111111 222222
  ⟨h.1 (by decide), h.2.2.2.1, h.2.2.2.2 [111111, 222222, 333333]⟩

/-! ## C11: the website is normalized before validation and storage -/

theorem toLowerCase_append (a b : String) :
    toLowerCase (a ++ b) = toLowerCase a ++ toLowerCase b := by
  apply String.ext
  simp [toLowerCase, String.data_append]

/-- A string that starts with `https://` passes the scheme test. -/
theorem hasScheme_https_append (w : String) : hasScheme ("https://" ++ w) = true := by
  have hlow : toLowerCase "https://" = "https://" := by decide
  have hpre : "https://".data <+: (toLowerCase ("https://" ++ w)).data := by
    rw [toLowerCase_append, hlow, String.data_append]
    exact List.prefix_append _ _
  unfold hasScheme
  rw [Bool.or_eq_true]
  exact Or.inr (List.isPrefixOf_iff_prefix.mpr hpre)

/-- The scheme test holds exactly for the strings `p ++ rest` whose head `p` is
`http://` or `https://` up to letter case. -/
theorem hasScheme_iff (w : String) :
    hasScheme w = true ↔
      ∃ p rest : String, w = p ++ rest ∧
        (toLowerCase p = "http://" ∨ toLowerCase p = "https://") := by
  have key : ∀ s : String, s.data <+: (toLowerCase w).data ↔
      ∃ p rest : String, w = p ++ rest ∧ toLowerCase p = s := by
    intro s
    constructor
    · rintro ⟨t, ht⟩
      have hmap : List.map Char.toLower w.data = s.data ++ t := ht.symm
      obtain ⟨l1, l2, hw, h1, _⟩ := List.map_eq_append_iff.mp hmap
      refine ⟨String.mk l1, String.mk l2, String.ext ?_, String.ext ?_⟩
      · simpa [String.data_append] using hw
      · simpa [toLowerCase] using h1
    · rintro ⟨p, rest, hw, hp⟩
      rw [hw, toLowerCase_append, hp, String.data_append]
      exact List.prefix_append _ _
  unfold hasScheme
  rw [Bool.or_eq_true, List.isPrefixOf_iff_prefix, List.isPrefixOf_iff_prefix, key, key]
  constructor
  · rintro (⟨p, rest, hw, hp⟩ | ⟨p, rest, hw, hp⟩)
    · exact ⟨p, rest, hw, Or.inl hp⟩
    · exact ⟨p, rest, hw, Or.inr hp⟩
  · rintro ⟨p, rest, hw, hp | hp⟩
    · exact Or.inl ⟨p, rest, hw, hp⟩
    · exact Or.inr ⟨p, rest, hw, hp⟩

theorem normalizeWebsite_of_hasScheme (w : String) (h : hasScheme w = true) :
    normalizeWebsite (some w) = w := by
  by_cases hw : w = ""
  · subst hw; decide
  · simp [normalizeWebsite, falsy, hw, h]

theorem normalizeWebsite_of_no_scheme (w : String) (hw : w ≠ "") (h : hasScheme w = false) :
    normalizeWebsite (some w) = "https://" ++ w := by
  simp [normalizeWebsite, falsy, hw, h]

/-- C11. The website `POST /kyc` validates and stores is `normalizeWebsite w`:
the empty string when `w` is missing or empty, `w` itself when `w` begins with
`http://` or `https://` up to letter case, and `"https://" ++ w` otherwise, so
that `example.org` becomes `https://example.org`; normalizing twice is
normalizing once. For a session of an organization `o` in a store that meets the
schema constraints and an accepted upload, the schema validation runs on the
body with the normalized website: its issues are answered 400, and on success
the website stored in the `kycDetails` of `o` is the normalized one. -/
theorem website_normalized_then_stored (env : Env) :
    normalizeWebsite none = "" ∧ normalizeWebsite (some "") = "" ∧
      (∀ w, hasScheme w = true ↔
        ∃ p rest : String, w = p ++ rest ∧
          (toLowerCase p = "http://" ∨ toLowerCase p = "https://")) ∧
      (∀ w, hasScheme w = true → normalizeWebsite (some w) = w) ∧
      (∀ w, w ≠ "" → hasScheme w = false → normalizeWebsite (some w) = "https://" ++ w) ∧
      normalizeWebsite (some "example.org") = "https://example.org" ∧
      (∀ w : Option String, normalizeWebsite (some (normalizeWebsite w)) = normalizeWebsite w) ∧
      (∀ (st : Store) (req : KycRequest) (c : Credential) (file : UploadedFile)
          (o : Organization),
        st.Valid → o ∈ st.organizations → req.authorization = some c → c.verifies = true →
        c.user.id = o._id → c.user.walletAddress = some o.walletAddress →
        uploadSingle req.file = .ok (some file) →
        (∀ issues,
            safeParse env req.body (normalizeWebsite req.body.website) (some file)
              = .failure issues →
            postKyc env st req = (st, .json 400 (.errors issues))) ∧
          (∀ data,
            safeParse env req.body (normalizeWebsite req.body.website) (some file)
              = .success data →
            ∃ o2, findOne (postKyc env st req).1.organizations (some o.walletAddress) = some o2 ∧
              o2.kycDetails.map (·.website) =
                some (some (normalizeWebsite req.body.website)))) := by
  refine ⟨by decide, by decide, hasScheme_iff, normalizeWebsite_of_hasScheme,
    normalizeWebsite_of_no_scheme, by decide, ?_, ?_⟩
  · intro w
    have hstr : ∀ v : String, normalizeWebsite (some (normalizeWebsite (some v)))
        = normalizeWebsite (some v) := by
      intro v
      by_cases hv : v = ""
      · subst hv; decide
      · cases hs : hasScheme v with
        | true =>
          rw [normalizeWebsite_of_hasScheme v hs, normalizeWebsite_of_hasScheme v hs]
        | false =>
          rw [normalizeWebsite_of_no_scheme v hv hs]
          exact normalizeWebsite_of_hasScheme _ (hasScheme_https_append v)
    cases w with
    | none => decide
    | some v => exact hstr v
  · intro st req c file o hv ho hauth hver hid hwallet hfile
    have hone : findOne st.organizations (some o.walletAddress) = some o :=
      findOne_of_valid hv ho
    have hbyid : findById st.organizations c.user.id = some o := by
      rw [hid]; exact findById_of_valid hv ho
    have hmw : authMiddleware req.authorization = .ok c.user := by
      simp [authMiddleware, hauth, hver]
    constructor
    · intro issues hparse
      simp [postKyc, hmw, hfile, hbyid, hparse]
    · intro data hparse
      have hfind := find?_updateFirst
        (fun x : Organization => matchesFilter (some o.walletAddress) x.walletAddress)
        (fun x : Organization => matchesFilter (some o.walletAddress) x.walletAddress)
        (setKyc (kycDetailsOf data
          (req.protocol ++ "://" ++ req.host ++ "/uploads/" ++ file.filename))) o
        (fun _ => rfl) st.organizations hone hone
      refine ⟨setKyc (kycDetailsOf data
        (req.protocol ++ "://" ++ req.host ++ "/uploads/" ++ file.filename)) o, ?_, ?_⟩
      · simpa [postKyc, hmw, hfile, hbyid, hparse, hwallet, findOneAndUpdate, hone, findOne]
          using hfind
      · simp [setKyc, kycDetailsOf, (safeParse_success hparse).2.2.2.1]

/-- C11, on a concrete submission: `example.org` alone is not a URL for the
validator at hand, the request is accepted all the same, and the stored website
is `https://example.org`. -/
theorem website_normalized_then_stored_witness :
    demoKycRequest.body.website = some "example.org" ∧
      demoEnv.isUrl "example.org" = false ∧
      ∃ o2, findOne (postKyc demoEnv rejectedStore demoKycRequest).1.organizations
            (some "0xab") = some o2 ∧
        o2.kycDetails.map (·.website) = some (some "https://example.org") :=
  ⟨rfl, by decide,
   ((website_normalized_then_stored demoEnv).2.2.2.2.2.2.2 rejectedStore demoKycRequest
      rejectedOrgCredential demoFile rejectedOrg (by decide) (by decide) rfl rfl rfl rfl
      rfl).2 demoKycData (by decide)⟩

end Authenx
